import Mathlib

/-!
Verification of the eidex log persistence and retention engine
(`src/eidex/database.py`, `src/eidex/config.py`).

The SQLite-backed store is modelled as a list of rows plus the
auto-increment counter.  For the write and query path the row timestamps
are abstract instants (`Int`, linearly ordered, the order in which the
store assigns them); for `prune_old_logs` the model is textual, because
the source compares the stored `CURRENT_TIMESTAMP` text
(`YYYY-MM-DD HH:MM:SS`) byte-wise against the Python
`datetime.now().isoformat()` cutoff text (`YYYY-MM-DDTHH:MM:SS.ffffff`),
and the two formats do not order chronologically.  JSON payloads
are modelled by an inductive `JValue`; `json.dumps`/`json.loads` is an
exact round trip on such values, so serialization is modelled as the
identity, while the Python truthiness test `if extra_info` that guards
serialization is modelled faithfully by `pyTruthy`.
-/

/-- A JSON-like structured payload value (the `extra_info` argument). -/
inductive JValue where
  | jnull : JValue
  | jbool : Bool → JValue
  | jnum : Int → JValue
  | jstr : String → JValue
  | jarr : List JValue → JValue
  | jobj : List (String × JValue) → JValue
deriving Repr

/-- Python truthiness of a JSON-like value, as tested by `if extra_info`. -/
def pyTruthy : JValue → Bool
  | .jnull => false
  | .jbool b => b
  | .jnum n => n != 0
  | .jstr s => s != ""
  | .jarr xs => !xs.isEmpty
  | .jobj fs => !fs.isEmpty

/-- What `log_work` stores in the `extra` column:
`json.dumps(extra_info) if extra_info else None`. -/
def storedExtra : Option JValue → Option JValue
  | some v => if pyTruthy v then some v else none
  | none => none

/-- One row of the `logs` table. -/
structure Row where
  id : Nat
  timestamp : Int
  branch : String
  message : String
  extra : Option JValue
deriving Repr

/-- The `logs` table together with the auto-increment counter. -/
structure LogDB where
  rows : List Row
  nextId : Nat
deriving Repr

/-- The empty store right after schema creation (SQLite rowids start at 1). -/
def emptyDB : LogDB := { rows := [], nextId := 1 }

/-- `a`'s sort key `(timestamp, id)` is lexicographically below `b`'s. -/
def rowKeyLt (a b : Row) : Prop :=
  a.timestamp < b.timestamp ∨ (a.timestamp = b.timestamp ∧ a.id < b.id)

instance : DecidableRel rowKeyLt := fun a b => by
  unfold rowKeyLt; infer_instance

/-- `a` comes no later than `b` in the output of
`ORDER BY timestamp DESC` (ties resolved by the `(branch, timestamp)`
index scan, i.e. by rowid descending): `b`'s key is at most `a`'s. -/
def fetchLe (a b : Row) : Prop :=
  b.timestamp < a.timestamp ∨ (b.timestamp = a.timestamp ∧ b.id ≤ a.id)

instance : DecidableRel fetchLe := fun a b => by
  unfold fetchLe; infer_instance

instance : IsTotal Row fetchLe :=
  ⟨fun a b => by unfold fetchLe; omega⟩

instance : IsTrans Row fetchLe :=
  ⟨fun a b c hab hbc => by unfold fetchLe at *; omega⟩

/-- The row order produced by the branch query. -/
def sortRows (l : List Row) : List Row := List.insertionSort fetchLe l

/-- One entry as returned by `fetch_branch_logs`
(`SELECT timestamp, branch, message, extra`); `extra` is deserialized,
`json.loads(row[3]) if row[3] else None`, the identity on the stored
optional value since `json.dumps` never returns an empty string. -/
structure Entry where
  timestamp : Int
  branch : String
  message : String
  extra : Option JValue
deriving Repr

def rowToEntry (r : Row) : Entry :=
  { timestamp := r.timestamp, branch := r.branch, message := r.message, extra := r.extra }

/-- `fetch_branch_logs`: empty on `limit <= 0`, otherwise the branch's rows
by `timestamp` descending (ties newest-rowid first), truncated to `limit`. -/
def fetch_branch_logs (db : LogDB) (branch : String) (limit : Int) : List Entry :=
  if limit ≤ 0 then []
  else ((sortRows (db.rows.filter (fun r => r.branch = branch))).take limit.toNat).map rowToEntry

/-- The `INSERT INTO logs (branch, message, extra) VALUES (?, ?, ?)` step of
`log_work`; the store assigns `id` and `timestamp` (`now`). -/
def insertRow (db : LogDB) (branch message : String) (extraInfo : Option JValue)
    (now : Int) : LogDB :=
  { rows := db.rows ++
      [{ id := db.nextId, timestamp := now, branch := branch, message := message,
         extra := storedExtra extraInfo }],
    nextId := db.nextId + 1 }

/-- The age-pruning maintenance step as it appears inside `log_work`,
abstracted to instant comparison on the instant-level store (the
write-path statements depend only on this step's swallow behaviour, never
on which rows it deletes).  The faithful model of `prune_old_logs`
itself — SQLite text timestamps compared byte-wise against the
`isoformat` cutoff string — is `prune_old_logs` below. -/
def pruneLogsByInstant (db : LogDB) (now days : Int) : LogDB × Nat :=
  let cutoff := now - days
  let kept := db.rows.filter (fun r => ¬ r.timestamp < cutoff)
  ({ rows := kept, nextId := db.nextId }, db.rows.length - kept.length)

/-- `cleanup_deleted_branches`: for every distinct stored branch missing
from the repository's branch set, delete its rows; return the total
number of deleted rows. -/
def cleanup_deleted_branches (db : LogDB) (existingBranches : List String) :
    LogDB × Nat :=
  let kept := db.rows.filter (fun r => existingBranches.contains r.branch)
  ({ rows := kept, nextId := db.nextId }, db.rows.length - kept.length)

/-- The count-cap eviction inside `log_work`:
`DELETE FROM logs WHERE branch = ? AND id NOT IN
 (SELECT id FROM logs WHERE branch = ? ORDER BY timestamp DESC LIMIT ?)`. -/
def enforce_max_logs (db : LogDB) (branch : String) (maxLogs : Nat) : LogDB :=
  let keepIds :=
    ((sortRows (db.rows.filter (fun r => r.branch = branch))).take maxLogs).map Row.id
  { rows := db.rows.filter
      (fun r => if r.branch = branch then keepIds.contains r.id else true),
    nextId := db.nextId }

/-- `log_work`: insert the row (the committed primary write), then run the
two best-effort maintenance steps, each inside `try ... except: pass`.
The flags `pruneRaises`/`evictRaises` model an arbitrary exception raised
inside the corresponding step before its transaction commits. -/
def log_work (db : LogDB) (branch message : String) (extraInfo : Option JValue)
    (now : Int) (autoCleanup : Bool) (cleanupDays : Int) (maxLogs : Int)
    (pruneRaises evictRaises : Bool) : Except String LogDB :=
  let db1 := insertRow db branch message extraInfo now
  let db2 :=
    if autoCleanup then
      match (if pruneRaises then Except.error "prune raised"
             else Except.ok (pruneLogsByInstant db1 now cleanupDays).1 : Except String LogDB) with
      | .ok d => d
      | .error _ => db1
    else db1
  let db3 :=
    if 0 < maxLogs then
      match (if evictRaises then Except.error "evict raised"
             else Except.ok (enforce_max_logs db2 branch maxLogs.toNat) : Except String LogDB) with
      | .ok d => d
      | .error _ => db2
    else db2
  Except.ok db3

/-! ### `prune_old_logs` (text-level, faithful to the source)

`prune_old_logs` executes `DELETE FROM logs WHERE timestamp < ?` with
`? = (datetime.now() - timedelta(days=days)).isoformat()`.  The stored
`timestamp` column was filled by SQLite's `DEFAULT CURRENT_TIMESTAMP`,
the text `YYYY-MM-DD HH:MM:SS` (UTC); the bound cutoff is the text
`YYYY-MM-DDTHH:MM:SS.ffffff` (local clock).  SQLite's default BINARY
collation compares the two texts byte by byte.  The model below renders
both texts exactly and compares them byte-wise; the calendar arithmetic
of `timedelta(days=...)` is the standard civil-calendar conversion. -/

/-- Days since 1970-01-01 of a civil date (proleptic Gregorian). -/
def daysFromCivil (y m d : Int) : Int :=
  let y2 := if m ≤ 2 then y - 1 else y
  let era := Int.fdiv y2 400
  let yoe := y2 - era * 400
  let mp := if 2 < m then m - 3 else m + 9
  let doy := Int.fdiv (153 * mp + 2) 5 + d - 1
  let doe := yoe * 365 + Int.fdiv yoe 4 - Int.fdiv yoe 100 + doy
  era * 146097 + doe - 719468

/-- Civil date `(year, month, day)` of a day count since 1970-01-01. -/
def civilFromDays (z0 : Int) : Int × Int × Int :=
  let z := z0 + 719468
  let era := Int.fdiv z 146097
  let doe := z - era * 146097
  let yoe := Int.fdiv (doe - Int.fdiv doe 1460 + Int.fdiv doe 36524 - Int.fdiv doe 146096) 365
  let y := era * 400 + yoe
  let doy := doe - (365 * yoe + Int.fdiv yoe 4 - Int.fdiv yoe 100)
  let mp := Int.fdiv (5 * doy + 2) 153
  let d := doy - Int.fdiv (153 * mp + 2) 5 + 1
  let m := if mp < 10 then mp + 3 else mp - 9
  (if m ≤ 2 then y + 1 else y, m, d)

/-- A Python `datetime` value (microsecond resolution, no time zone). -/
structure PyDateTime where
  year : Int
  month : Int
  day : Int
  hour : Int
  minute : Int
  second : Int
  usec : Int
deriving Repr, DecidableEq

/-- `dt - timedelta(days=days)`: shift the civil date, keep the time. -/
def minusDays (dt : PyDateTime) (days : Int) : PyDateTime :=
  let c := civilFromDays (daysFromCivil dt.year dt.month dt.day - days)
  { dt with year := c.1, month := c.2.1, day := c.2.2 }

/-- The instant a `PyDateTime` denotes, in microseconds since the epoch
(single clock; "strictly older" in the claim compares these). -/
def instantUsec (dt : PyDateTime) : Int :=
  (daysFromCivil dt.year dt.month dt.day * 86400
    + dt.hour * 3600 + dt.minute * 60 + dt.second) * 1000000 + dt.usec

/-- `a` denotes a strictly earlier instant than `b`. -/
def chronoLt (a b : PyDateTime) : Prop := instantUsec a < instantUsec b

instance : DecidableRel chronoLt := fun a b => by
  unfold chronoLt; infer_instance

/-- Zero-padded fixed-width decimal rendering. -/
def padNum (w : Nat) (n : Int) : List Char :=
  let s := Nat.toDigits 10 n.toNat
  List.replicate (w - s.length) '0' ++ s

/-- SQLite `CURRENT_TIMESTAMP` text: `YYYY-MM-DD HH:MM:SS`. -/
def sqliteTimestamp (dt : PyDateTime) : List Char :=
  padNum 4 dt.year ++ ['-'] ++ padNum 2 dt.month ++ ['-'] ++ padNum 2 dt.day ++ [' ']
    ++ padNum 2 dt.hour ++ [':'] ++ padNum 2 dt.minute ++ [':'] ++ padNum 2 dt.second

/-- Python `datetime.isoformat()` text: `YYYY-MM-DDTHH:MM:SS` with
`.ffffff` appended exactly when the microsecond field is nonzero. -/
def pyIsoformat (dt : PyDateTime) : List Char :=
  padNum 4 dt.year ++ ['-'] ++ padNum 2 dt.month ++ ['-'] ++ padNum 2 dt.day ++ ['T']
    ++ padNum 2 dt.hour ++ [':'] ++ padNum 2 dt.minute ++ [':'] ++ padNum 2 dt.second
    ++ (if dt.usec = 0 then [] else ['.'] ++ padNum 6 dt.usec)

/-- Byte-wise text comparison (SQLite BINARY collation `<` on TEXT;
code points coincide with bytes on ASCII timestamps). -/
def textLt : List Char → List Char → Bool
  | [], [] => false
  | [], _ :: _ => true
  | _ :: _, [] => false
  | a :: as, b :: bs => if a = b then textLt as bs else decide (a < b)

/-- One row of the `logs` table with its `timestamp` column as stored:
the `CURRENT_TIMESTAMP` text. -/
structure TextRow where
  id : Nat
  timestamp : List Char
  branch : String
  message : String
  extra : Option JValue
deriving Repr

/-- The `logs` table at text level. -/
structure TextLogDB where
  rows : List TextRow
  nextId : Nat
deriving Repr

/-- `prune_old_logs`: compute
`cutoff = (datetime.now() - timedelta(days=days)).isoformat()`, run
`DELETE FROM logs WHERE timestamp < ?` (byte-wise text comparison, all
branches) and return `cursor.rowcount`. -/
def prune_old_logs (db : TextLogDB) (now : PyDateTime) (days : Int) :
    TextLogDB × Nat :=
  let cutoff := pyIsoformat (minusDays now days)
  let kept := db.rows.filter (fun r => !textLt r.timestamp cutoff)
  ({ rows := kept, nextId := db.nextId }, db.rows.length - kept.length)

/-! ### Schema creation (`ensure_db`, table/index part) -/

/-- The schema objects of one store file. -/
structure StoreSchema where
  tables : List String
  indexes : List String
deriving Repr

/-- A fresh store file before any `ensure_db` call. -/
def freshStore : StoreSchema := { tables := [], indexes := [] }

/-- The `CREATE TABLE IF NOT EXISTS logs ...` /
`CREATE INDEX IF NOT EXISTS idx_branch_timestamp ...` part of `ensure_db`. -/
def ensure_db (s : StoreSchema) : StoreSchema :=
  let s1 := if s.tables.contains "logs" then s
            else { s with tables := s.tables ++ ["logs"] }
  if s1.indexes.contains "idx_branch_timestamp" then s1
  else { s1 with indexes := s1.indexes ++ ["idx_branch_timestamp"] }

/-! ### The `.gitignore` maintenance part of `ensure_db`

File contents are modelled as `List Char`; Python's substring test
`entry not in content` is modelled by `occursIn`. -/

/-- `needle` matches at the very start of `hay`. -/
def charsEqAt : List Char → List Char → Bool
  | [], _ => true
  | _ :: _, [] => false
  | a :: as, b :: bs => a == b && charsEqAt as bs

/-- Python's substring test `needle in hay`. -/
def occursIn (needle : List Char) : List Char → Bool
  | [] => charsEqAt needle []
  | c :: rest => charsEqAt needle (c :: rest) || occursIn needle rest

/-- The `.gitignore` update of `ensure_db`: when the file exists, read its
content once and append `"\n" ++ entry ++ "\n"` for each configured entry
not occurring in that content; when absent, write every entry followed by
a newline. -/
def ensure_gitignore (existing : Option (List Char)) (entries : List (List Char)) :
    List Char :=
  match existing with
  | some content =>
      content ++
        ((entries.filter (fun e => !occursIn e content)).map
          (fun e => '\n' :: (e ++ ['\n']))).flatten
  | none => (entries.map (fun e => e ++ ['\n'])).flatten

/-! ### Configuration (`src/eidex/config.py`) -/

/-- A TOML-representable configuration value. -/
inductive ConfigVal where
  | vStr : String → ConfigVal
  | vInt : Int → ConfigVal
  | vBool : Bool → ConfigVal
  | vList : List String → ConfigVal
deriving Repr, DecidableEq

/-- One configuration section, a key-value dictionary in insertion order. -/
abbrev SectionMap := List (String × ConfigVal)

/-- A whole configuration: sections keyed by name. -/
abbrev ConfigMap := List (String × SectionMap)

/-- The hardcoded `DEFAULT_CONFIG` dictionary. -/
def DEFAULT_CONFIG : ConfigMap :=
  [("database",
      [("filename", .vStr ".eidex-logs.db"),
       ("max_logs_per_branch", .vInt 1000),
       ("auto_cleanup_old_logs", .vBool true),
       ("cleanup_days_threshold", .vInt 90)]),
   ("logging",
      [("default_limit", .vInt 50),
       ("timestamp_format", .vStr "iso"),
       ("include_branch_in_output", .vBool true)]),
   ("git",
      [("auto_add_to_gitignore", .vBool true),
       ("gitignore_entries", .vList [".eidex/", ".eidex-cache/"])])]

/-- Python `dict.update`: overridden keys keep their position, new keys are
appended in update order. -/
def dictUpdate (base updates : SectionMap) : SectionMap :=
  (base.map (fun kv =>
    match updates.lookup kv.1 with
    | some v => (kv.1, v)
    | none => kv)) ++
  updates.filter (fun kv => (base.lookup kv.1).isNone)

/-- The per-section shallow merge in `load_config`: defaults copied, then
updated by the file's matching section; file-only sections are dropped. -/
def mergeConfig (fileConfig : ConfigMap) : ConfigMap :=
  DEFAULT_CONFIG.map (fun sv =>
    match fileConfig.lookup sv.1 with
    | some fs => (sv.1, dictUpdate sv.2 fs)
    | none => sv)

/-- `load_config`: parse the TOML file and merge it over the defaults;
on any parse failure (or when no TOML parser is importable) fall back to
`DEFAULT_CONFIG`.  `parsed` is the outcome of `tomllib.load`. -/
def load_config (tomlAvailable : Bool) (parsed : Except String ConfigMap) : ConfigMap :=
  if tomlAvailable then
    match parsed with
    | .ok fileConfig => mergeConfig fileConfig
    | .error _ => DEFAULT_CONFIG
  else DEFAULT_CONFIG

/-- `config.get(section, dict()).get(key, default)`. -/
def configGet (c : ConfigMap) (sec key : String) (dflt : Option ConfigVal) :
    Option ConfigVal :=
  match c.lookup sec with
  | some m =>
    match m.lookup key with
    | some v => some v
    | none => dflt
  | none => dflt

/-- `get_config_value section key default`. -/
def get_config_value (tomlAvailable : Bool) (parsed : Except String ConfigMap)
    (sec key : String) (dflt : Option ConfigVal) : Option ConfigVal :=
  configGet (load_config tomlAvailable parsed) sec key dflt

/-- The rows created by a sequence of appends to one branch, ids assigned
consecutively from `startId`; each element of `ops` is
`(message, extra_info, now)` with `now` the store-assigned timestamp. -/
def mkInsertedRows (branch : String) (startId : Nat) :
    List (String × Option JValue × Int) → List Row
  | [] => []
  | op :: rest =>
    { id := startId, timestamp := op.2.2, branch := branch, message := op.1,
      extra := storedExtra op.2.1 } ::
      mkInsertedRows branch (startId + 1) rest

/-- Folding `log_work` over a list of appends to one branch, configured
with auto cleanup off and no count cap (insert-only appends). -/
def appendAll (db : LogDB) (branch : String)
    (ops : List (String × Option JValue × Int)) : LogDB :=
  ops.foldl (fun d op =>
    match log_work d branch op.1 op.2.1 op.2.2 false 0 0 false false with
    | .ok d2 => d2
    | .error _ => d) db

/-! ## Helper lemmas -/

theorem length_sub_filter (p : Row → Bool) (l : List Row) :
    l.length - (l.filter p).length = (l.filter (fun x => !(p x))).length := by
  induction l with
  | nil => simp
  | cons x t ih =>
    have hle := List.length_filter_le p t
    cases h : p x <;> simp [List.filter_cons, h] <;> omega

/-! ## C1: age-based pruning -/

/-- C1: the code does not delete exactly the entries strictly older than
the cutoff `now - days`.  Failing input: one stored row stamped
`2025-07-14 23:50:00` by `CURRENT_TIMESTAMP`, and `prune_old_logs 90`
called at `2025-10-12 10:00:00.500000` (same clock).  The cutoff text is
`2025-07-14T10:00:00.500000`; the row denotes an instant 13 h 50 min
*after* the cutoff instant, so the claim requires it to be retained and
0 returned — but byte-wise the stored text is below the cutoff text
(`' ' < 'T'` at offset 10), so the code deletes the row and returns 1.
The function's own docstring ("Delete logs older than the specified
number of days") says the opposite, so this is a defect of the code. -/
theorem prune_old_logs_deletes_newer_same_day_row :
    pyIsoformat (minusDays
        { year := 2025, month := 10, day := 12, hour := 10, minute := 0,
          second := 0, usec := 500000 } 90)
      = "2025-07-14T10:00:00.500000".toList
    ∧ sqliteTimestamp
        { year := 2025, month := 7, day := 14, hour := 23, minute := 50,
          second := 0, usec := 0 }
      = "2025-07-14 23:50:00".toList
    ∧ ¬ chronoLt
        { year := 2025, month := 7, day := 14, hour := 23, minute := 50,
          second := 0, usec := 0 }
        (minusDays
          { year := 2025, month := 10, day := 12, hour := 10, minute := 0,
            second := 0, usec := 500000 } 90)
    ∧ prune_old_logs
        { rows := [{ id := 1, timestamp := "2025-07-14 23:50:00".toList,
                     branch := "main", message := "m", extra := none }],
          nextId := 2 }
        { year := 2025, month := 10, day := 12, hour := 10, minute := 0,
          second := 0, usec := 500000 } 90
      = ({ rows := [], nextId := 2 }, 1) := by
  refine ⟨by decide, by decide, by decide, rfl⟩

/-! ## C6: deleted-branch reconciliation -/

/-- C6: `cleanup_deleted_branches` deletes exactly the rows whose branch
is absent from the existing-branch set, leaves the rows of every existing
branch untouched, and returns the total number of deleted rows. -/
theorem cleanup_deleted_branches_correct (db : LogDB) (existing : List String) :
    (∀ r : Row, r ∈ (cleanup_deleted_branches db existing).1.rows
        ↔ r ∈ db.rows ∧ r.branch ∈ existing)
    ∧ (∀ b ∈ existing,
        (cleanup_deleted_branches db existing).1.rows.filter (fun r => r.branch = b)
          = db.rows.filter (fun r => r.branch = b))
    ∧ (cleanup_deleted_branches db existing).2
        = (db.rows.filter (fun r => ¬ r.branch ∈ existing)).length := by
  refine ⟨?_, ?_, ?_⟩
  · intro r
    show r ∈ List.filter _ _ ↔ _
    simp [List.mem_filter, List.elem_iff]
  · intro b hb
    show (List.filter _ _).filter _ = _
    rw [List.filter_filter]
    apply List.filter_congr
    intro r _
    by_cases hrb : r.branch = b
    · simp [hrb, hb]
    · simp [hrb]
  · show db.rows.length - _ = _
    have h := length_sub_filter (fun r : Row => existing.contains r.branch) db.rows
    simpa using h

theorem cleanup_deleted_branches_correct_witness :
    (∀ r : Row,
        r ∈ (cleanup_deleted_branches
              { rows := [{ id := 1, timestamp := 1, branch := "A", message := "a", extra := none },
                         { id := 2, timestamp := 2, branch := "B", message := "b", extra := none },
                         { id := 3, timestamp := 3, branch := "B", message := "c", extra := none },
                         { id := 4, timestamp := 4, branch := "C", message := "d", extra := none }],
                nextId := 5 } ["A", "C"]).1.rows
          ↔ r ∈ ({ rows := [{ id := 1, timestamp := 1, branch := "A", message := "a", extra := none },
                            { id := 2, timestamp := 2, branch := "B", message := "b", extra := none },
                            { id := 3, timestamp := 3, branch := "B", message := "c", extra := none },
                            { id := 4, timestamp := 4, branch := "C", message := "d", extra := none }],
                   nextId := 5 } : LogDB).rows ∧ r.branch ∈ ["A", "C"])
    ∧ (∀ b ∈ ["A", "C"],
        (cleanup_deleted_branches
            { rows := [{ id := 1, timestamp := 1, branch := "A", message := "a", extra := none },
                       { id := 2, timestamp := 2, branch := "B", message := "b", extra := none },
                       { id := 3, timestamp := 3, branch := "B", message := "c", extra := none },
                       { id := 4, timestamp := 4, branch := "C", message := "d", extra := none }],
              nextId := 5 } ["A", "C"]).1.rows.filter (fun r => r.branch = b)
          = ({ rows := [{ id := 1, timestamp := 1, branch := "A", message := "a", extra := none },
                        { id := 2, timestamp := 2, branch := "B", message := "b", extra := none },
                        { id := 3, timestamp := 3, branch := "B", message := "c", extra := none },
                        { id := 4, timestamp := 4, branch := "C", message := "d", extra := none }],
               nextId := 5 } : LogDB).rows.filter (fun r => r.branch = b))
    ∧ (cleanup_deleted_branches
          { rows := [{ id := 1, timestamp := 1, branch := "A", message := "a", extra := none },
                     { id := 2, timestamp := 2, branch := "B", message := "b", extra := none },
                     { id := 3, timestamp := 3, branch := "B", message := "c", extra := none },
                     { id := 4, timestamp := 4, branch := "C", message := "d", extra := none }],
            nextId := 5 } ["A", "C"]).2
        = (({ rows := [{ id := 1, timestamp := 1, branch := "A", message := "a", extra := none },
                       { id := 2, timestamp := 2, branch := "B", message := "b", extra := none },
                       { id := 3, timestamp := 3, branch := "B", message := "c", extra := none },
                       { id := 4, timestamp := 4, branch := "C", message := "d", extra := none }],
              nextId := 5 } : LogDB).rows.filter (fun r => ¬ r.branch ∈ ["A", "C"])).length :=
  cleanup_deleted_branches_correct _ _

/-! ## C7: non-positive limit boundary -/

/-- C7: with an effective limit at most 0, `fetch_branch_logs` returns the
empty sequence (a total function: no error, and no row of the store is
consulted). -/
theorem fetch_branch_logs_nonpositive_limit (db : LogDB) (branch : String)
    (limit : Int) (h : limit ≤ 0) : fetch_branch_logs db branch limit = [] := by
  simp [fetch_branch_logs, h]

theorem fetch_branch_logs_nonpositive_limit_witness :
    ((-3 : Int) ≤ 0)
    ∧ fetch_branch_logs
        { rows := [{ id := 1, timestamp := 5, branch := "main",
                     message := "m", extra := none }], nextId := 2 }
        "main" (-3) = [] :=
  ⟨by decide, fetch_branch_logs_nonpositive_limit _ _ _ (by decide)⟩

/-! ## C8: idempotent schema creation -/

theorem ensure_db_tables_has_logs (s : StoreSchema) :
    "logs" ∈ (ensure_db s).tables := by
  unfold ensure_db
  by_cases h1 : "logs" ∈ s.tables
    <;> by_cases h2 : "idx_branch_timestamp" ∈ (if s.tables.contains "logs" then s
          else { s with tables := s.tables ++ ["logs"] }).indexes
    <;> simp_all [List.elem_iff]

theorem ensure_db_indexes_has_idx (s : StoreSchema) :
    "idx_branch_timestamp" ∈ (ensure_db s).indexes := by
  unfold ensure_db
  by_cases h1 : "logs" ∈ s.tables
    <;> by_cases h2 : "idx_branch_timestamp" ∈ (if s.tables.contains "logs" then s
          else { s with tables := s.tables ++ ["logs"] }).indexes
    <;> simp_all [List.elem_iff]

theorem ensure_db_idem (s : StoreSchema) : ensure_db (ensure_db s) = ensure_db s := by
  have h1 := ensure_db_tables_has_logs s
  have h2 := ensure_db_indexes_has_idx s
  conv_lhs => rw [ensure_db]
  simp [h1, h2, List.elem_iff]

/-- C8: calling `ensure_db` any positive number of times starting from a
fresh store yields exactly one `logs` table and exactly one
`idx_branch_timestamp` index; the function is total (raises nothing) and
idempotent. -/
theorem ensure_db_idempotent_schema (n : Nat) (h : 1 ≤ n) :
    (ensure_db^[n] freshStore).tables.count "logs" = 1
    ∧ (ensure_db^[n] freshStore).indexes.count "idx_branch_timestamp" = 1
    ∧ ensure_db^[n] freshStore = ensure_db freshStore
    ∧ ∀ s : StoreSchema, ensure_db (ensure_db s) = ensure_db s := by
  have iter : ∀ k : Nat, ensure_db^[k] (ensure_db freshStore) = ensure_db freshStore := by
    intro k
    induction k with
    | zero => rfl
    | succ m ih =>
      rw [Function.iterate_succ_apply, ensure_db_idem, ih]
  obtain ⟨m, rfl⟩ : ∃ m, n = m + 1 := ⟨n - 1, by omega⟩
  have hn : ensure_db^[m + 1] freshStore = ensure_db freshStore := by
    rw [Function.iterate_succ_apply, iter]
  refine ⟨?_, ?_, hn, ensure_db_idem⟩
  · rw [hn]; rfl
  · rw [hn]; rfl

theorem ensure_db_idempotent_schema_witness :
    1 ≤ 3
    ∧ ((ensure_db^[3] freshStore).tables.count "logs" = 1
      ∧ (ensure_db^[3] freshStore).indexes.count "idx_branch_timestamp" = 1
      ∧ ensure_db^[3] freshStore = ensure_db freshStore
      ∧ ∀ s : StoreSchema, ensure_db (ensure_db s) = ensure_db s) :=
  ⟨by decide, ensure_db_idempotent_schema 3 (by decide)⟩

/-! ## C10: malformed configuration file falls back to defaults -/

/-- C10: when the configuration file exists but cannot be parsed,
`load_config` returns the built-in `DEFAULT_CONFIG` (it is a total
function, so no error is raised), and every `get_config_value` read then
behaves exactly as a read against the defaults. -/
theorem load_config_malformed_defaults (e : String) :
    load_config true (.error e) = DEFAULT_CONFIG
    ∧ ∀ (sec key : String) (dflt : Option ConfigVal),
        get_config_value true (.error e) sec key dflt
          = configGet DEFAULT_CONFIG sec key dflt := by
  exact ⟨rfl, fun sec key dflt => rfl⟩

/-! ## C9: ignore-file maintenance -/

theorem occursIn_nil_needle (h : List Char) : occursIn [] h = true := by
  induction h with
  | nil => rfl
  | cons c rest ih => simp [occursIn, charsEqAt]

theorem charsEqAt_self_append (n t : List Char) : charsEqAt n (n ++ t) = true := by
  induction n with
  | nil => rfl
  | cons a as ih => simp [charsEqAt, ih]

theorem charsEqAt_append_right (n h t : List Char) (hm : charsEqAt n h = true) :
    charsEqAt n (h ++ t) = true := by
  induction n generalizing h with
  | nil => rfl
  | cons a as ih =>
    cases h with
    | nil => simp [charsEqAt] at hm
    | cons b bs =>
      simp only [charsEqAt, Bool.and_eq_true] at hm
      simp only [List.cons_append, charsEqAt, Bool.and_eq_true]
      exact ⟨hm.1, ih bs hm.2⟩

theorem occursIn_append_right (n h t : List Char) (hm : occursIn n h = true) :
    occursIn n (h ++ t) = true := by
  induction h with
  | nil =>
    cases n with
    | nil => exact occursIn_nil_needle t
    | cons a as => simp [occursIn, charsEqAt] at hm
  | cons c hs ih =>
    simp only [occursIn, Bool.or_eq_true] at hm
    rcases hm with hm | hm
    · simp only [List.cons_append, occursIn, Bool.or_eq_true]
      exact Or.inl (charsEqAt_append_right n (c :: hs) t hm)
    · simp only [List.cons_append, occursIn, Bool.or_eq_true]
      exact Or.inr (ih hm)

theorem occursIn_append_left (n h t : List Char) (hm : occursIn n t = true) :
    occursIn n (h ++ t) = true := by
  induction h with
  | nil => exact hm
  | cons c hs ih =>
    simp only [List.cons_append, occursIn, Bool.or_eq_true]
    exact Or.inr ih

theorem occursIn_self_append (n t : List Char) : occursIn n (n ++ t) = true := by
  cases n with
  | nil => exact occursIn_nil_needle t
  | cons a as =>
    simp only [occursIn, Bool.or_eq_true]
    exact Or.inl (charsEqAt_self_append (a :: as) t)

/-- C9: `ensure_gitignore` leaves the prior content in place as a prefix
(existing lines undisturbed), appends exactly the configured entries that
do not already occur in the prior content (so an entry already present is
never appended again), ends with every configured entry occurring in the
file, and when the file was absent writes all entries, one per line. -/
theorem ensure_gitignore_correct (content : List Char) (entries : List (List Char)) :
    (ensure_gitignore (some content) entries).take content.length = content
    ∧ ensure_gitignore (some content) entries
        = content ++ ((entries.filter (fun e => !occursIn e content)).map
            (fun e => '\n' :: (e ++ ['\n']))).flatten
    ∧ (∀ e ∈ entries, occursIn e content = true →
        e ∉ entries.filter (fun e2 => !occursIn e2 content))
    ∧ (∀ e ∈ entries, occursIn e (ensure_gitignore (some content) entries) = true)
    ∧ ensure_gitignore none entries = (entries.map (fun e => e ++ ['\n'])).flatten := by
  refine ⟨?_, rfl, ?_, ?_, rfl⟩
  · show (content ++ _).take content.length = content
    rw [List.take_left]
  · intro e _ hocc hmem
    rw [List.mem_filter] at hmem
    simp [hocc] at hmem
  · intro e he
    show occursIn e (content ++ _) = true
    by_cases hocc : occursIn e content = true
    · exact occursIn_append_right _ _ _ hocc
    · apply occursIn_append_left
      have hf : e ∈ entries.filter (fun e2 => !occursIn e2 content) := by
        rw [List.mem_filter]
        exact ⟨he, by simp [Bool.eq_false_iff.mpr hocc]⟩
      obtain ⟨pre, post, hsplit⟩ := List.append_of_mem hf
      rw [hsplit, List.map_append, List.map_cons, List.flatten_append, List.flatten_cons]
      apply occursIn_append_left
      show occursIn e ('\n' :: ((e ++ ['\n']) ++ _)) = true
      simp only [occursIn, Bool.or_eq_true]
      refine Or.inr ?_
      rw [List.append_assoc]
      exact occursIn_self_append e _

theorem ensure_gitignore_correct_witness :
    (ensure_gitignore (some "node_modules/\n.eidex/\n".toList)
        [".eidex/".toList, ".eidex-cache/".toList]).take
        "node_modules/\n.eidex/\n".toList.length = "node_modules/\n.eidex/\n".toList
    ∧ ensure_gitignore (some "node_modules/\n.eidex/\n".toList)
        [".eidex/".toList, ".eidex-cache/".toList]
        = "node_modules/\n.eidex/\n".toList ++
          ((([".eidex/".toList, ".eidex-cache/".toList].filter
              (fun e => !occursIn e "node_modules/\n.eidex/\n".toList)).map
            (fun e => '\n' :: (e ++ ['\n']))).flatten)
    ∧ (∀ e ∈ [".eidex/".toList, ".eidex-cache/".toList],
        occursIn e "node_modules/\n.eidex/\n".toList = true →
        e ∉ [".eidex/".toList, ".eidex-cache/".toList].filter
              (fun e2 => !occursIn e2 "node_modules/\n.eidex/\n".toList))
    ∧ (∀ e ∈ [".eidex/".toList, ".eidex-cache/".toList],
        occursIn e (ensure_gitignore (some "node_modules/\n.eidex/\n".toList)
          [".eidex/".toList, ".eidex-cache/".toList]) = true)
    ∧ ensure_gitignore none [".eidex/".toList, ".eidex-cache/".toList]
        = ([".eidex/".toList, ".eidex-cache/".toList].map (fun e => e ++ ['\n'])).flatten :=
  ensure_gitignore_correct _ _

/-! ## C5: maintenance failures are swallowed by `log_work` -/

/-- C5: `log_work` never surfaces a maintenance failure.  Whatever raises
inside the age-pruning or the count-cap step, the call returns `ok`; and
when the failing steps are the only ones that would have touched the
store, the result is exactly the store with the new row committed. -/
theorem log_work_swallows_maintenance_failures (db : LogDB)
    (branch message : String) (extraInfo : Option JValue) (now : Int)
    (autoCleanup : Bool) (cleanupDays maxLogs : Int)
    (pruneRaises evictRaises : Bool) :
    (∃ dbOut : LogDB,
      log_work db branch message extraInfo now autoCleanup cleanupDays maxLogs
        pruneRaises evictRaises = Except.ok dbOut
      ∧ dbOut.nextId = db.nextId + 1)
    ∧ (pruneRaises = true → evictRaises = true →
        log_work db branch message extraInfo now autoCleanup cleanupDays maxLogs
          pruneRaises evictRaises
          = Except.ok (insertRow db branch message extraInfo now)
        ∧ { id := db.nextId, timestamp := now, branch := branch, message := message,
            extra := storedExtra extraInfo }
            ∈ (insertRow db branch message extraInfo now).rows) := by
  constructor
  · unfold log_work
    cases autoCleanup <;> cases pruneRaises <;> cases evictRaises
      <;> by_cases hm : 0 < maxLogs
      <;> simp [hm, insertRow, pruneLogsByInstant, enforce_max_logs]
  · rintro rfl rfl
    constructor
    · unfold log_work
      cases autoCleanup <;> by_cases hm : 0 < maxLogs <;> simp [hm]
    · simp [insertRow]

theorem log_work_swallows_maintenance_failures_witness :
    (∃ dbOut : LogDB,
      log_work { rows := [{ id := 1, timestamp := 3, branch := "main",
                            message := "old", extra := none }], nextId := 2 }
        "main" "fix bug" none 10 true 90 1000 true true = Except.ok dbOut
      ∧ dbOut.nextId = 3)
    ∧ log_work { rows := [{ id := 1, timestamp := 3, branch := "main",
                            message := "old", extra := none }], nextId := 2 }
        "main" "fix bug" none 10 true 90 1000 true true
        = Except.ok (insertRow { rows := [{ id := 1, timestamp := 3, branch := "main",
                                            message := "old", extra := none }], nextId := 2 }
            "main" "fix bug" none 10)
    ∧ { id := 2, timestamp := 10, branch := "main", message := "fix bug",
        extra := storedExtra none }
        ∈ (insertRow { rows := [{ id := 1, timestamp := 3, branch := "main",
                                  message := "old", extra := none }], nextId := 2 }
            "main" "fix bug" none 10).rows := by
  refine ⟨?_, ?_⟩
  · obtain ⟨h, -⟩ := log_work_swallows_maintenance_failures
      { rows := [{ id := 1, timestamp := 3, branch := "main",
                   message := "old", extra := none }], nextId := 2 }
      "main" "fix bug" none 10 true 90 1000 true true
    exact h
  · exact (log_work_swallows_maintenance_failures _ _ _ _ _ _ _ _ _ _).2 rfl rfl

/-! ## Ordering machinery for the query and eviction claims -/

theorem sorted_head_eq_max (s : List Row) (x : Row) (hs : List.Sorted fetchLe s)
    (hx : x ∈ s) (hdom : ∀ y ∈ s, y = x ∨ rowKeyLt y x) : ∃ t, s = x :: t := by
  cases s with
  | nil => cases hx
  | cons h t =>
    by_cases hhx : h = x
    · exact ⟨t, by rw [hhx]⟩
    · rcases hdom h (by simp) with h1 | h1
      · exact absurd h1 hhx
      · have hxt : x ∈ t := by
          rcases List.mem_cons.mp hx with h2 | h2
          · exact absurd h2.symm hhx
          · exact h2
        have hle : fetchLe h x := List.rel_of_sorted_cons hs x hxt
        unfold fetchLe at hle
        unfold rowKeyLt at h1
        omega

theorem sortRows_head_of_max (l : List Row) (x : Row) (hx : x ∈ l)
    (hdom : ∀ y ∈ l, y = x ∨ rowKeyLt y x) : ∃ t, sortRows l = x :: t := by
  have hs : List.Sorted fetchLe (sortRows l) := List.sorted_insertionSort fetchLe l
  have hperm : List.Perm (sortRows l) l := List.perm_insertionSort fetchLe l
  exact sorted_head_eq_max _ x hs (hperm.mem_iff.mpr hx)
    (fun y hy => hdom y (hperm.subset hy))

/-! ## C2: payload round trip through append and query -/

/-- C2 (amended): after an append, querying the branch returns the new
entry first, with `extra` exactly `storedExtra extraInfo`; every
Python-truthy payload (in particular every non-empty mapping) therefore
round-trips exactly, while an absent payload is stored and returned as
null.  (The claim as frozen also covers the empty mapping, which the code
stores as NULL — see the counterexample.) -/
theorem round_trip_truthy_payload (db : LogDB) (b msg : String)
    (extraInfo : Option JValue) (now : Int) (N : Int)
    (h1 : ∀ r ∈ db.rows, r.timestamp ≤ now)
    (h2 : ∀ r ∈ db.rows, r.id < db.nextId)
    (hN : 1 ≤ N) :
    log_work db b msg extraInfo now false 0 0 false false
      = Except.ok (insertRow db b msg extraInfo now)
    ∧ (fetch_branch_logs (insertRow db b msg extraInfo now) b N).head?
        = some { timestamp := now, branch := b, message := msg,
                 extra := storedExtra extraInfo }
    ∧ (∀ v : JValue, pyTruthy v = true → storedExtra (some v) = some v)
    ∧ storedExtra none = none := by
  refine ⟨rfl, ?_, fun v hv => by simp [storedExtra, hv], rfl⟩
  set x : Row := { id := db.nextId, timestamp := now, branch := b, message := msg,
                   extra := storedExtra extraInfo } with hxdef
  have hrows : (insertRow db b msg extraInfo now).rows = db.rows ++ [x] := rfl
  have hxmem : x ∈ (db.rows ++ [x]).filter (fun r => r.branch = b) := by
    rw [List.mem_filter]
    refine ⟨by simp, by simp [hxdef]⟩
  have hdom : ∀ y ∈ (db.rows ++ [x]).filter (fun r => r.branch = b),
      y = x ∨ rowKeyLt y x := by
    intro y hy
    rw [List.mem_filter] at hy
    rcases List.mem_append.mp hy.1 with hyold | hynew
    · right
      have ht := h1 y hyold
      have hi := h2 y hyold
      unfold rowKeyLt
      simp only [hxdef]
      omega
    · left
      simpa using hynew
  obtain ⟨t, hsort⟩ := sortRows_head_of_max _ x hxmem hdom
  have hNpos : ¬ N ≤ 0 := by omega
  obtain ⟨m, hm⟩ : ∃ m, N.toNat = m + 1 := ⟨N.toNat - 1, by omega⟩
  rw [fetch_branch_logs, if_neg hNpos, hrows, hsort, hm]
  rfl

/-- C2 counterexample to the claim as frozen: appending an entry whose
payload is the empty mapping stores NULL (Python truthiness of the empty
dict), and the query returns `extra` null, not the empty mapping. -/
theorem round_trip_empty_mapping_counterexample :
    log_work emptyDB "main" "m" (some (JValue.jobj [])) 0 false 0 0 false false
      = Except.ok { rows := [{ id := 1, timestamp := 0, branch := "main",
                               message := "m", extra := none }], nextId := 2 }
    ∧ fetch_branch_logs
        { rows := [{ id := 1, timestamp := 0, branch := "main",
                     message := "m", extra := none }], nextId := 2 } "main" 1
        = [{ timestamp := 0, branch := "main", message := "m", extra := none }]
    ∧ (none : Option JValue) ≠ some (JValue.jobj []) := by
  refine ⟨rfl, rfl, by simp⟩

theorem round_trip_truthy_payload_witness :
    (∀ r ∈ (emptyDB : LogDB).rows, r.timestamp ≤ (7 : Int))
    ∧ (∀ r ∈ (emptyDB : LogDB).rows, r.id < (emptyDB : LogDB).nextId)
    ∧ (1 : Int) ≤ 1
    ∧ ((fetch_branch_logs
          (insertRow emptyDB "main" "add endpoint"
            (some (JValue.jobj [("type", JValue.jstr "feature"), ("n", JValue.jnum 3)])) 7)
          "main" 1).head?
        = some { timestamp := 7, branch := "main", message := "add endpoint",
                 extra := storedExtra (some (JValue.jobj
                   [("type", JValue.jstr "feature"), ("n", JValue.jnum 3)])) }) := by
  refine ⟨by simp [emptyDB], by simp [emptyDB], by norm_num, ?_⟩
  exact (round_trip_truthy_payload emptyDB "main" "add endpoint" _ 7 1
    (by simp [emptyDB]) (by simp [emptyDB]) (by norm_num)).2.1

/-! ## C3: query ordering over a sequence of appends -/

theorem appendAll_rows (db : LogDB) (branch : String)
    (ops : List (String × Option JValue × Int)) :
    appendAll db branch ops
      = { rows := db.rows ++ mkInsertedRows branch db.nextId ops,
          nextId := db.nextId + ops.length } := by
  induction ops generalizing db with
  | nil => simp [appendAll, mkInsertedRows]
  | cons op rest ih =>
    show appendAll (insertRow db branch op.1 op.2.1 op.2.2) branch rest = _
    rw [ih]
    simp [insertRow, mkInsertedRows]
    omega

theorem mkInsertedRows_branch (branch : String) (startId : Nat)
    (ops : List (String × Option JValue × Int)) :
    ∀ r ∈ mkInsertedRows branch startId ops, r.branch = branch := by
  induction ops generalizing startId with
  | nil => intro r hr; cases hr
  | cons op rest ih =>
    intro r hr
    rcases List.mem_cons.mp hr with h | h
    · rw [h]
    · exact ih (startId + 1) r h

theorem mkInsertedRows_id_ge (branch : String) (startId : Nat)
    (ops : List (String × Option JValue × Int)) :
    ∀ r ∈ mkInsertedRows branch startId ops, startId ≤ r.id := by
  induction ops generalizing startId with
  | nil => intro r hr; cases hr
  | cons op rest ih =>
    intro r hr
    rcases List.mem_cons.mp hr with h | h
    · rw [h]
    · have := ih (startId + 1) r h
      omega

theorem mkInsertedRows_timestamps (branch : String) (startId : Nat)
    (ops : List (String × Option JValue × Int)) :
    (mkInsertedRows branch startId ops).map Row.timestamp
      = ops.map (fun op => op.2.2) := by
  induction ops generalizing startId with
  | nil => rfl
  | cons op rest ih => simp [mkInsertedRows, ih]

theorem mkInsertedRows_pairwise (branch : String) (startId : Nat)
    (ops : List (String × Option JValue × Int))
    (hts : List.Pairwise (· ≤ ·) (ops.map (fun op => op.2.2))) :
    List.Pairwise rowKeyLt (mkInsertedRows branch startId ops) := by
  induction ops generalizing startId with
  | nil => exact List.Pairwise.nil
  | cons op rest ih =>
    rw [List.map_cons, List.pairwise_cons] at hts
    refine List.pairwise_cons.mpr ⟨?_, ih (startId + 1) hts.2⟩
    intro r hr
    have hid := mkInsertedRows_id_ge branch (startId + 1) rest r hr
    have hts2 : op.2.2 ≤ r.timestamp := by
      apply hts.1
      rw [← mkInsertedRows_timestamps branch (startId + 1) rest]
      exact List.mem_map_of_mem Row.timestamp hr
    unfold rowKeyLt
    simp only
    omega

theorem orderedInsert_append_of_forall (x : Row) (l : List Row)
    (h : ∀ y ∈ l, ¬ fetchLe x y) :
    List.orderedInsert fetchLe x l = l ++ [x] := by
  induction l with
  | nil => rfl
  | cons a t ih =>
    have hxa : ¬ fetchLe x a := h a (by simp)
    simp only [List.orderedInsert]
    rw [if_neg hxa, ih (fun y hy => h y (by simp [hy]))]
    rfl

theorem sortRows_pairwise_reverse (l : List Row)
    (hp : List.Pairwise rowKeyLt l) : sortRows l = l.reverse := by
  induction l with
  | nil => rfl
  | cons a t ih =>
    rw [List.pairwise_cons] at hp
    have step : sortRows (a :: t) = List.orderedInsert fetchLe a (sortRows t) := rfl
    rw [step, ih hp.2, orderedInsert_append_of_forall, List.reverse_cons]
    intro y hy
    have hlt : rowKeyLt a y := hp.1 y (List.mem_reverse.mp hy)
    unfold rowKeyLt at hlt
    unfold fetchLe
    omega

/-- C3: starting from an empty store, after any sequence of appends to a
branch whose store-assigned timestamps are nondecreasing (they are
assigned at insert time), `fetch_branch_logs branch N` returns exactly
the last `N` appended entries, newest first: descending by timestamp,
with equal timestamps in reverse insertion order (this is precisely
`take N` of the reversed insertion sequence). -/
theorem fetch_branch_logs_returns_recent (b : String)
    (ops : List (String × Option JValue × Int)) (N : Int)
    (hts : List.Pairwise (· ≤ ·) (ops.map (fun op => op.2.2)))
    (hN : 1 ≤ N) :
    fetch_branch_logs (appendAll emptyDB b ops) b N
      = ((mkInsertedRows b 1 ops).reverse.take N.toNat).map rowToEntry := by
  rw [appendAll_rows]
  have hNpos : ¬ N ≤ 0 := by omega
  rw [fetch_branch_logs, if_neg hNpos]
  simp only [emptyDB, List.nil_append]
  have hfilter : (mkInsertedRows b 1 ops).filter (fun r => r.branch = b)
      = mkInsertedRows b 1 ops := by
    rw [List.filter_eq_self]
    intro r hr
    simp [mkInsertedRows_branch b 1 ops r hr]
  rw [hfilter, sortRows_pairwise_reverse _ (mkInsertedRows_pairwise b 1 ops hts),
    List.map_take]

theorem fetch_branch_logs_returns_recent_witness :
    List.Pairwise (· ≤ ·)
      ([("a", (none : Option JValue), (5 : Int)), ("b", none, 5), ("c", none, 7)].map
        (fun op => op.2.2))
    ∧ (1 : Int) ≤ 2
    ∧ fetch_branch_logs
        (appendAll emptyDB "main" [("a", none, 5), ("b", none, 5), ("c", none, 7)])
        "main" 2
      = [{ timestamp := 7, branch := "main", message := "c", extra := none },
         { timestamp := 5, branch := "main", message := "b", extra := none }] := by
  refine ⟨by decide, by decide, ?_⟩
  rw [fetch_branch_logs_returns_recent "main"
    [("a", none, 5), ("b", none, 5), ("c", none, 7)] 2 (by decide) (by decide)]
  rfl

/-! ## C4: count-cap eviction -/

theorem length_filter_mem_of_nodup (A K : List Nat) (hA : A.Nodup) (hK : K.Nodup)
    (hsub : K ⊆ A) : (A.filter (fun i => K.contains i)).length = K.length := by
  have h1 : (A.filter (fun i => K.contains i)).Nodup := hA.filter _
  have hmem : ∀ i, i ∈ A.filter (fun i => K.contains i) ↔ i ∈ K := by
    intro i
    rw [List.mem_filter]
    constructor
    · rintro ⟨-, h⟩
      simpa [List.elem_iff] using h
    · intro h
      exact ⟨hsub h, by simp [List.elem_iff, h]⟩
  have hp1 : (A.filter (fun i => K.contains i)).Subperm K :=
    List.subperm_of_subset h1 (fun i hi => (hmem i).mp hi)
  have hp2 : K.Subperm (A.filter (fun i => K.contains i)) :=
    List.subperm_of_subset hK (fun i hi => (hmem i).mpr hi)
  exact (hp1.antisymm hp2).length_eq

theorem contains_eq_decide_mem (K : List Nat) (i : Nat) :
    K.contains i = decide (i ∈ K) := by
  by_cases h : i ∈ K <;> simp [h, List.elem_iff]

theorem map_id_filter_contains (l : List Row) (K : List Nat) :
    (l.filter (fun r => K.contains r.id)).map Row.id
      = (l.map Row.id).filter (fun i => K.contains i) := by
  induction l with
  | nil => rfl
  | cons a t ih =>
    simp only [contains_eq_decide_mem] at ih ⊢
    by_cases h : a.id ∈ K <;> simp [List.filter_cons, h, ih]

theorem enforce_max_logs_spec (db : LogDB) (b : String) (m : Nat)
    (hnodup : (db.rows.map Row.id).Nodup) :
    ((enforce_max_logs db b m).rows.filter (fun r => r.branch = b)).length
        = min m ((db.rows.filter (fun r => r.branch = b)).length)
    ∧ (∀ c : String, ¬ c = b →
        (enforce_max_logs db b m).rows.filter (fun r => r.branch = c)
          = db.rows.filter (fun r => r.branch = c))
    ∧ (∀ r ∈ (enforce_max_logs db b m).rows, r.branch = b →
        ∀ s ∈ db.rows, s.branch = b →
          s ∉ (enforce_max_logs db b m).rows → fetchLe r s) := by
  have hl_nodup : ((db.rows.filter (fun r => r.branch = b)).map Row.id).Nodup :=
    List.Nodup.sublist (List.Sublist.map Row.id (List.filter_sublist db.rows)) hnodup
  have hsrt_perm :
      List.Perm (sortRows (db.rows.filter (fun r => r.branch = b)))
        (db.rows.filter (fun r => r.branch = b)) :=
    List.perm_insertionSort fetchLe _
  have hsrt_nodup :
      ((sortRows (db.rows.filter (fun r => r.branch = b))).map Row.id).Nodup :=
    ((hsrt_perm.map Row.id).nodup_iff).mpr hl_nodup
  have hkeep_sub :
      List.Sublist ((sortRows (db.rows.filter (fun r => r.branch = b))).take m)
        (sortRows (db.rows.filter (fun r => r.branch = b))) :=
    List.take_sublist m _
  have hkIds_nodup :
      (((sortRows (db.rows.filter (fun r => r.branch = b))).take m).map Row.id).Nodup :=
    List.Nodup.sublist (hkeep_sub.map Row.id) hsrt_nodup
  have hkIds_sub :
      ((sortRows (db.rows.filter (fun r => r.branch = b))).take m).map Row.id
        ⊆ (db.rows.filter (fun r => r.branch = b)).map Row.id := by
    intro i hi
    obtain ⟨r, hr, rfl⟩ := List.mem_map.mp hi
    exact List.mem_map_of_mem Row.id (hsrt_perm.subset (hkeep_sub.subset hr))
  have hA : (enforce_max_logs db b m).rows.filter (fun r => r.branch = b)
      = (db.rows.filter (fun r => r.branch = b)).filter (fun r =>
          (((sortRows (db.rows.filter (fun r2 => r2.branch = b))).take m).map
            Row.id).contains r.id) := by
    show (db.rows.filter _).filter _ = _
    rw [List.filter_filter, List.filter_filter]
    apply List.filter_congr
    intro r _
    by_cases hrb : r.branch = b
    · simp [hrb]
    · simp [hrb]
  refine ⟨?_, ?_, ?_⟩
  · rw [hA]
    have hlen1 : ((db.rows.filter (fun r => r.branch = b)).filter (fun r =>
        (((sortRows (db.rows.filter (fun r2 => r2.branch = b))).take m).map
          Row.id).contains r.id)).length
        = (((sortRows (db.rows.filter (fun r => r.branch = b))).take m).map
            Row.id).length := by
      have hmap := map_id_filter_contains (db.rows.filter (fun r => r.branch = b))
        (((sortRows (db.rows.filter (fun r => r.branch = b))).take m).map Row.id)
      have := length_filter_mem_of_nodup
        ((db.rows.filter (fun r => r.branch = b)).map Row.id)
        (((sortRows (db.rows.filter (fun r => r.branch = b))).take m).map Row.id)
        hl_nodup hkIds_nodup hkIds_sub
      calc ((db.rows.filter (fun r => r.branch = b)).filter (fun r =>
              (((sortRows (db.rows.filter (fun r2 => r2.branch = b))).take m).map
                Row.id).contains r.id)).length
          = (((db.rows.filter (fun r => r.branch = b)).filter (fun r =>
              (((sortRows (db.rows.filter (fun r2 => r2.branch = b))).take m).map
                Row.id).contains r.id)).map Row.id).length := (List.length_map _ _).symm
        _ = (((db.rows.filter (fun r => r.branch = b)).map Row.id).filter (fun i =>
              (((sortRows (db.rows.filter (fun r2 => r2.branch = b))).take m).map
                Row.id).contains i)).length := by rw [hmap]
        _ = (((sortRows (db.rows.filter (fun r => r.branch = b))).take m).map
              Row.id).length := this
    rw [hlen1, List.length_map, List.length_take, hsrt_perm.length_eq]
  · intro c hc
    show (db.rows.filter _).filter _ = _
    rw [List.filter_filter]
    apply List.filter_congr
    intro r _
    by_cases hrc : r.branch = c
    · have hrb : ¬ r.branch = b := by rw [hrc]; exact hc
      simp only [hrc, hrb]
      simp [hc]
    · simp [hrc]
  · intro r hr hrb s hs hsb hsnot
    obtain ⟨hrdb, hrpred⟩ := List.mem_filter.mp hr
    have hrid : r.id ∈ ((sortRows (db.rows.filter (fun r2 => r2.branch = b))).take m).map
        Row.id := by
      rw [if_pos hrb] at hrpred
      simpa [List.elem_iff] using hrpred
    have hrl : r ∈ db.rows.filter (fun r2 => r2.branch = b) :=
      List.mem_filter.mpr ⟨hrdb, by simp [hrb]⟩
    have hrsrt : r ∈ sortRows (db.rows.filter (fun r2 => r2.branch = b)) :=
      hsrt_perm.mem_iff.mpr hrl
    obtain ⟨r2, hr2keep, hr2id⟩ := List.mem_map.mp hrid
    have hr2srt : r2 ∈ sortRows (db.rows.filter (fun r3 => r3.branch = b)) :=
      hkeep_sub.subset hr2keep
    have hr2eq : r2 = r := List.inj_on_of_nodup_map hsrt_nodup hr2srt hrsrt hr2id
    have hrkeep : r ∈ (sortRows (db.rows.filter (fun r2 => r2.branch = b))).take m :=
      hr2eq ▸ hr2keep
    have hsl : s ∈ db.rows.filter (fun r2 => r2.branch = b) :=
      List.mem_filter.mpr ⟨hs, by simp [hsb]⟩
    have hssrt : s ∈ sortRows (db.rows.filter (fun r2 => r2.branch = b)) :=
      hsrt_perm.mem_iff.mpr hsl
    have hsnkeep : s ∉ (sortRows (db.rows.filter (fun r2 => r2.branch = b))).take m := by
      intro hskeep
      apply hsnot
      apply List.mem_filter.mpr
      refine ⟨hs, ?_⟩
      rw [if_pos hsb]
      have : s.id ∈ ((sortRows (db.rows.filter (fun r2 => r2.branch = b))).take m).map
          Row.id := List.mem_map_of_mem Row.id hskeep
      simpa [List.elem_iff] using this
    have hsdrop : s ∈ (sortRows (db.rows.filter (fun r2 => r2.branch = b))).drop m := by
      have hsplit := List.take_append_drop m
        (sortRows (db.rows.filter (fun r2 => r2.branch = b)))
      rcases List.mem_append.mp (by rw [hsplit]; exact hssrt) with h | h
      · exact absurd h hsnkeep
      · exact h
    have hsorted : List.Pairwise fetchLe
        ((sortRows (db.rows.filter (fun r2 => r2.branch = b))).take m
          ++ (sortRows (db.rows.filter (fun r2 => r2.branch = b))).drop m) := by
      rw [List.take_append_drop]
      exact List.sorted_insertionSort fetchLe _
    exact (List.pairwise_append.mp hsorted).2.2 r hrkeep s hsdrop

/-- C4: with `max_logs_per_branch > 0`, the eviction step after an append
leaves the written branch with `min maxLogs (previous count + 1)` rows —
exactly `maxLogs` once more than `maxLogs` entries have been appended —
keeps only rows that dominate every evicted row of that branch in the
`(timestamp, id)` descending order (the most recent ones), and deletes no
row of any other branch. -/
theorem log_work_count_cap (db : LogDB) (b msg : String) (extraInfo : Option JValue)
    (now : Int) (maxLogs : Int)
    (hmax : 0 < maxLogs)
    (hnodup : (db.rows.map Row.id).Nodup)
    (hfresh : ∀ r ∈ db.rows, r.id < db.nextId) :
    log_work db b msg extraInfo now false 0 maxLogs false false
      = Except.ok (enforce_max_logs (insertRow db b msg extraInfo now) b maxLogs.toNat)
    ∧ ((enforce_max_logs (insertRow db b msg extraInfo now) b maxLogs.toNat).rows.filter
          (fun r => r.branch = b)).length
        = min maxLogs.toNat ((db.rows.filter (fun r => r.branch = b)).length + 1)
    ∧ (maxLogs.toNat ≤ (db.rows.filter (fun r => r.branch = b)).length →
        ((enforce_max_logs (insertRow db b msg extraInfo now) b maxLogs.toNat).rows.filter
            (fun r => r.branch = b)).length = maxLogs.toNat)
    ∧ (∀ c : String, ¬ c = b →
        (enforce_max_logs (insertRow db b msg extraInfo now) b maxLogs.toNat).rows.filter
            (fun r => r.branch = c)
          = db.rows.filter (fun r => r.branch = c))
    ∧ (∀ r ∈ (enforce_max_logs (insertRow db b msg extraInfo now) b maxLogs.toNat).rows,
        r.branch = b →
        ∀ s ∈ (insertRow db b msg extraInfo now).rows, s.branch = b →
          s ∉ (enforce_max_logs (insertRow db b msg extraInfo now) b maxLogs.toNat).rows →
          fetchLe r s) := by
  have h1nodup : ((insertRow db b msg extraInfo now).rows.map Row.id).Nodup := by
    show (List.map Row.id (db.rows ++ [_])).Nodup
    rw [List.map_append]
    rw [List.nodup_append]
    refine ⟨hnodup, List.nodup_singleton _, ?_⟩
    intro i hi hmem
    obtain ⟨r, hr, rfl⟩ := List.mem_map.mp hi
    have := hfresh r hr
    simp only [List.map_cons, List.map_nil, List.mem_singleton] at hmem
    omega
  have hspec := enforce_max_logs_spec (insertRow db b msg extraInfo now) b maxLogs.toNat
    h1nodup
  have hcount : ((insertRow db b msg extraInfo now).rows.filter
      (fun r => r.branch = b)).length
      = (db.rows.filter (fun r => r.branch = b)).length + 1 := by
    show (List.filter _ (db.rows ++ [_])).length = _
    rw [List.filter_append]
    simp
  have hframe : ∀ c : String, ¬ c = b →
      ((insertRow db b msg extraInfo now).rows.filter (fun r => r.branch = c))
        = db.rows.filter (fun r => r.branch = c) := by
    intro c hc
    show List.filter _ (db.rows ++ [_]) = _
    rw [List.filter_append]
    have hbc : ¬ (b = c) := fun h => hc h.symm
    simp [hbc]
  refine ⟨?_, ?_, ?_, fun c hc => (hspec.2.1 c hc).trans (hframe c hc), hspec.2.2⟩
  · simp [log_work, hmax]
  · rw [hspec.1, hcount]
  · intro hge
    rw [hspec.1, hcount]
    omega

theorem log_work_count_cap_witness :
    (0 : Int) < 2
    ∧ (log_work
        { rows := [{ id := 1, timestamp := 1, branch := "main", message := "a", extra := none },
                   { id := 2, timestamp := 2, branch := "main", message := "b", extra := none },
                   { id := 3, timestamp := 1, branch := "dev", message := "c", extra := none }],
          nextId := 4 } "main" "d" none 3 false 0 2 false false
        = Except.ok (enforce_max_logs
            (insertRow
              { rows := [{ id := 1, timestamp := 1, branch := "main", message := "a", extra := none },
                         { id := 2, timestamp := 2, branch := "main", message := "b", extra := none },
                         { id := 3, timestamp := 1, branch := "dev", message := "c", extra := none }],
                nextId := 4 } "main" "d" none 3) "main" (2 : Int).toNat))
    ∧ ((enforce_max_logs
          (insertRow
            { rows := [{ id := 1, timestamp := 1, branch := "main", message := "a", extra := none },
                       { id := 2, timestamp := 2, branch := "main", message := "b", extra := none },
                       { id := 3, timestamp := 1, branch := "dev", message := "c", extra := none }],
              nextId := 4 } "main" "d" none 3) "main" (2 : Int).toNat).rows.filter
          (fun r => r.branch = "main")).length = 2
    ∧ (enforce_max_logs
          (insertRow
            { rows := [{ id := 1, timestamp := 1, branch := "main", message := "a", extra := none },
                       { id := 2, timestamp := 2, branch := "main", message := "b", extra := none },
                       { id := 3, timestamp := 1, branch := "dev", message := "c", extra := none }],
              nextId := 4 } "main" "d" none 3) "main" (2 : Int).toNat).rows.filter
          (fun r => r.branch = "dev")
        = [{ id := 3, timestamp := 1, branch := "dev", message := "c", extra := none }] := by
  have h := log_work_count_cap
    { rows := [{ id := 1, timestamp := 1, branch := "main", message := "a", extra := none },
               { id := 2, timestamp := 2, branch := "main", message := "b", extra := none },
               { id := 3, timestamp := 1, branch := "dev", message := "c", extra := none }],
      nextId := 4 } "main" "d" none 3 2 (by decide) (by decide) (by decide)
  refine ⟨by decide, h.1, ?_, ?_⟩
  · have h2 := h.2.2.1 (by decide)
    simpa using h2
  · have h4 := h.2.2.2.1 "dev" (by decide)
    rw [h4]
    rfl
